import Mathlib

/-!
A verification development for `simulate_pbft.py`: a single-file simulation
comparing a baseline PBFT-style quorum vote (`PBFTProtocol`) against a
trust-filtered variant (`CEPBFTProtocol`) over a node population with a
configurable Byzantine share.

Modelling conventions, fixed once for the whole file:

* Randomness. The script draws from Python's process-wide generator. Vote
  draws enter as an explicit oracle `draws : ℕ → Bool`, the value
  `random.choice([True, False])` would return for the k-th node polled in
  the round (entries at honest positions are never read). Shuffle draws
  enter as a stream of naturals inside `Rng`. Any pattern of Byzantine
  votes and any permutation a real run can produce corresponds to some
  oracle, so a statement quantified over the oracle covers every run.

* Numbers. Python floats are modelled as exact rationals. For the quorum
  test `approved_votes >= (2/3) * size` the double-precision threshold
  agrees with the exact rational threshold at every feasible list length:
  when `size` is a multiple of 3 the float threshold is exactly the integer
  `2 * size / 3`, and otherwise the rounding error (below `size * 2 ^ (-50)`)
  is far smaller than the 1/3 distance from `2 * size / 3` to the nearest
  integer, so the same integers pass both comparisons.

* Time. Latencies (`Node.simulate_latency`) feed `time.sleep` and the
  wall-clock throughput denominator only; the denominator enters the
  embedding as an explicit `elapsed_time` parameter, and votes are
  unaffected by it.
-/

/-- One voting node (`class Node`, lines 7-9): `is_byzantine` is its only
attribute. -/
structure Node where
  is_byzantine : Bool
deriving DecidableEq

/-- `Node.vote` (lines 11-19): an honest node always approves; a Byzantine
node returns whatever `random.choice([True, False])` produced for this call,
passed in as `draw`. The latency simulated before voting never affects the
vote itself. -/
def Node.vote (node : Node) (draw : Bool) : Bool :=
  if node.is_byzantine then draw else true

/-- The vote-collection comprehension
`votes = [node.vote(transaction) for node in nodes]`: the k-th polled node
reads the k-th entry of the draw oracle. -/
def collectVotes : List Node → (ℕ → Bool) → List Bool
  | [], _ => []
  | node :: rest, draws =>
      node.vote (draws 0) :: collectVotes rest (fun k => draws (k + 1))

/-- The baseline protocol (`class PBFTProtocol`, lines 28-30): holds the
full node list bound at construction. -/
structure PBFTProtocol where
  nodes : List Node
deriving DecidableEq

/-- `PBFTProtocol.__init__` (lines 29-30). -/
def PBFTProtocol.init (nodes : List Node) : PBFTProtocol :=
  ⟨nodes⟩

/-- `PBFTProtocol.consensus` (lines 32-38): poll every node, count the
approving votes (`sum(votes)`), approve iff
`approved_votes >= (2/3) * len(self.nodes)`. -/
def PBFTProtocol.consensus (p : PBFTProtocol) (draws : ℕ → Bool) : Bool :=
  let votes := collectVotes p.nodes draws
  let approved_votes := votes.count true
  if (approved_votes : ℚ) ≥ 2/3 * (p.nodes.length : ℚ) then true else false

/-- `CEPBFTProtocol.classify_nodes` (lines 46-48): trust exactly the
non-Byzantine nodes. -/
def CEPBFTProtocol.classify_nodes (nodes : List Node) : List Node :=
  nodes.filter (fun node => !node.is_byzantine)

/-- The trust-filtered protocol (`class CEPBFTProtocol`, lines 41-44):
holds the full node list and the trusted subset computed at construction. -/
structure CEPBFTProtocol where
  nodes : List Node
  trusted_nodes : List Node
deriving DecidableEq

/-- `CEPBFTProtocol.__init__` (lines 42-44): the trusted subset is computed
once, by `classify_nodes`, when the instance is built. -/
def CEPBFTProtocol.init (nodes : List Node) : CEPBFTProtocol :=
  ⟨nodes, CEPBFTProtocol.classify_nodes nodes⟩

/-- `CEPBFTProtocol.consensus` (lines 50-58): an empty trusted subset short
circuits to `False` on line 52, before the vote comprehension on line 53
runs; otherwise poll exactly the trusted nodes and approve iff
`approved_votes >= (2/3) * len(self.trusted_nodes)`. -/
def CEPBFTProtocol.consensus (p : CEPBFTProtocol) (draws : ℕ → Bool) : Bool :=
  if p.trusted_nodes.length = 0 then false
  else
    let votes := collectVotes p.trusted_nodes draws
    let approved_votes := votes.count true
    if (approved_votes : ℚ) ≥ 2/3 * (p.trusted_nodes.length : ℚ) then true
    else false

/-- How many `Node.vote` calls one `CEPBFTProtocol.consensus` call performs:
zero when line 52 returns early, otherwise one per trusted node (the
comprehension on line 53 ranges over `self.trusted_nodes` only). -/
def CEPBFTProtocol.votesCollected (p : CEPBFTProtocol) : ℕ :=
  if p.trusted_nodes.length = 0 then 0 else p.trusted_nodes.length

/-- An `if`-expression returning Boolean literals equals `true` exactly when
its condition holds. -/
theorem ite_bool_eq_true_iff (c : Prop) [Decidable c] :
    (if c then true else false) = true ↔ c := by
  split <;> simp_all

/-- The source's real-valued quorum comparison, on vote counts, is the
integer comparison `2 * size ≤ 3 * approved`. -/
theorem quorum_iff (a n : ℕ) :
    ((a : ℚ) ≥ 2/3 * (n : ℚ)) ↔ 2 * n ≤ 3 * a := by
  rw [ge_iff_le, div_mul_eq_mul_div, div_le_iff₀ (by norm_num : (0 : ℚ) < 3)]
  constructor
  · intro h
    have h2 : ((2 * n : ℕ) : ℚ) ≤ ((3 * a : ℕ) : ℚ) := by push_cast; linarith
    exact_mod_cast h2
  · intro h
    have h2 : ((2 * n : ℕ) : ℚ) ≤ ((3 * a : ℕ) : ℚ) := by exact_mod_cast h
    push_cast at h2; linarith

/-- `collectVotes` produces one vote per node polled. -/
theorem length_collectVotes (nodes : List Node) (draws : ℕ → Bool) :
    (collectVotes nodes draws).length = nodes.length := by
  induction nodes generalizing draws with
  | nil => rfl
  | cons node rest ih => simp [collectVotes, ih]

/-- Honest nodes always approve, so the approving votes are at least the
honest nodes among those polled. -/
theorem countP_honest_le_count_true (nodes : List Node) (draws : ℕ → Bool) :
    (nodes.countP fun node => !node.is_byzantine) ≤
      (collectVotes nodes draws).count true := by
  induction nodes generalizing draws with
  | nil => simp [collectVotes]
  | cons node rest ih =>
    cases hb : node.is_byzantine with
    | false =>
      simpa [collectVotes, Node.vote, hb, List.countP_cons, List.count_cons]
        using ih fun k => draws (k + 1)
    | true =>
      simp only [collectVotes, Node.vote, hb, if_pos, List.countP_cons,
        List.count_cons]
      have h := ih fun k => draws (k + 1)
      cases draws 0 <;> simp <;> omega

/-- If every polled node is honest, every collected vote approves. -/
theorem count_true_collectVotes_of_honest (nodes : List Node)
    (draws : ℕ → Bool) (h : ∀ x ∈ nodes, x.is_byzantine = false) :
    (collectVotes nodes draws).count true = nodes.length := by
  induction nodes generalizing draws with
  | nil => simp [collectVotes]
  | cons node rest ih =>
    have hnode : node.is_byzantine = false := h node (by simp)
    have hrest : ∀ x ∈ rest, x.is_byzantine = false :=
      fun x hx => h x (by simp [hx])
    simp [collectVotes, Node.vote, hnode, List.count_cons, ih _ hrest]

/-- Claim C4: the baseline `consensus` returns `true` exactly when the
number of approving votes is at least `(2/3) * population_size` under the
real-valued comparison; in particular over 3 participants it approves with
2 approving votes and rejects with 1. -/
theorem baseline_quorum_real_comparison :
    (∀ (nodes : List Node) (draws : ℕ → Bool),
        (PBFTProtocol.init nodes).consensus draws = true ↔
          (((collectVotes nodes draws).count true : ℚ) ≥
            2/3 * (nodes.length : ℚ))) ∧
    (PBFTProtocol.init [⟨false⟩, ⟨false⟩, ⟨true⟩]).consensus (fun _ => false)
      = true ∧
    (PBFTProtocol.init [⟨false⟩, ⟨true⟩, ⟨true⟩]).consensus (fun _ => false)
      = false := by
  refine ⟨fun nodes draws => ?_, ?_, ?_⟩
  · simp only [PBFTProtocol.consensus, PBFTProtocol.init]
    exact ite_bool_eq_true_iff _
  · simp only [PBFTProtocol.consensus, PBFTProtocol.init, collectVotes,
      Node.vote]
    norm_num [List.count_cons]
  · simp only [PBFTProtocol.consensus, PBFTProtocol.init, collectVotes,
      Node.vote]
    norm_num [List.count_cons]

/-- Claim C10: over an empty population the baseline approves (0 approving
votes satisfy `0 >= (2/3) * 0`), while the trust-filtered protocol rejects
via its empty-trusted-subset check. -/
theorem empty_population_decisions (draws : ℕ → Bool) :
    (PBFTProtocol.init []).consensus draws = true ∧
      (CEPBFTProtocol.init []).consensus draws = false := by
  constructor
  · simp [PBFTProtocol.consensus, PBFTProtocol.init, collectVotes]
  · simp [CEPBFTProtocol.consensus, CEPBFTProtocol.init,
      CEPBFTProtocol.classify_nodes]

/-- Claim C5: when the trusted subset is empty the trust-filtered
`consensus` returns `false` and polls nobody. -/
theorem trust_filtered_empty_trusted (nodes : List Node) (draws : ℕ → Bool)
    (h : CEPBFTProtocol.classify_nodes nodes = []) :
    (CEPBFTProtocol.init nodes).consensus draws = false ∧
      (CEPBFTProtocol.init nodes).votesCollected = 0 := by
  constructor
  · simp [CEPBFTProtocol.consensus, CEPBFTProtocol.init, h]
  · simp [CEPBFTProtocol.votesCollected, CEPBFTProtocol.init, h]

/-- Witness for C5: one all-Byzantine participant. -/
theorem trust_filtered_empty_trusted_witness :
    (CEPBFTProtocol.init [⟨true⟩]).consensus (fun _ => true) = false ∧
      (CEPBFTProtocol.init [⟨true⟩]).votesCollected = 0 :=
  trust_filtered_empty_trusted [⟨true⟩] (fun _ => true) rfl

/-- Claim C9: when the trusted subset is nonempty the trust-filtered
`consensus` returns `true` deterministically: every trusted node is honest
and honest nodes always approve, so the approving votes equal the trusted
size, which meets its own two-thirds threshold. -/
theorem trust_filtered_nonempty_always_approves (nodes : List Node)
    (draws : ℕ → Bool) (h : CEPBFTProtocol.classify_nodes nodes ≠ []) :
    (CEPBFTProtocol.init nodes).consensus draws = true := by
  have htrusted : ∀ x ∈ CEPBFTProtocol.classify_nodes nodes,
      x.is_byzantine = false := by
    intro x hx
    have := List.of_mem_filter hx
    simpa using this
  have hlen : (CEPBFTProtocol.classify_nodes nodes).length ≠ 0 := by
    simpa [List.length_eq_zero] using h
  have hcount := count_true_collectVotes_of_honest
    (CEPBFTProtocol.classify_nodes nodes) draws htrusted
  simp only [CEPBFTProtocol.consensus, CEPBFTProtocol.init, hlen,
    if_false, hcount]
  rw [if_pos]
  rw [quorum_iff]
  omega

/-- Witness for C9: one honest participant. -/
theorem trust_filtered_nonempty_always_approves_witness :
    (CEPBFTProtocol.init [⟨false⟩]).consensus (fun _ => false) = true :=
  trust_filtered_nonempty_always_approves [⟨false⟩] (fun _ => false)
    (by simp [CEPBFTProtocol.classify_nodes])

/-- Python `int()` applied to a (float modelled as) rational: truncation
toward zero. -/
def pyInt (q : ℚ) : ℤ :=
  if 0 ≤ q then ⌊q⌋ else ⌈q⌉

/-- The node-building part of `simulate` (lines 62-67), before the shuffle:
`n_byzantine = int(n_nodes * byzantine_ratio)` Byzantine nodes are appended
first, then `n_nodes - n_byzantine` honest ones. Python's `range k` over a
non-positive `k` is empty, which `Int.toNat` reproduces. -/
def buildNodesPre (n_nodes : ℤ) (rho : ℚ) : List Node :=
  let n_byzantine : ℤ := pyInt ((n_nodes : ℚ) * rho)
  List.replicate n_byzantine.toNat ⟨true⟩ ++
    List.replicate (n_nodes - n_byzantine).toNat ⟨false⟩

/-- The state of the global random generator as the shuffle consumes it: a
stream of naturals and a cursor. The k-th `randbelow(i+1)` draw of
`random.shuffle` is modelled as `stream pos % (i+1)`; every index below the
bound is reachable, so every permutation a real run can produce is an
outcome of `pyShuffle` for some stream. -/
structure Rng where
  stream : ℕ → ℕ
  pos : ℕ

/-- Consume one draw from the generator. -/
def Rng.next (rng : Rng) : ℕ × Rng :=
  (rng.stream rng.pos, ⟨rng.stream, rng.pos + 1⟩)

/-- The swap `x[i], x[j] = x[j], x[i]` inside `random.shuffle`: out-of-range
positions (never hit by the shuffle) leave the list unchanged. -/
def listSwap (l : List Node) (i j : ℕ) : List Node :=
  match l[i]?, l[j]? with
  | some a, some b => (l.set i b).set j a
  | _, _ => l

/-- CPython's Fisher-Yates loop in `random.shuffle`: for `i` from
`len(x) - 1` down to `1`, swap `x[i]` with `x[j]` where `j = randbelow(i+1)`.
The first argument is the current value of `i`. -/
def shuffleSteps : ℕ → List Node → Rng → List Node × Rng
  | 0, l, rng => (l, rng)
  | i + 1, l, rng =>
      let (d, rng1) := rng.next
      shuffleSteps i (listSwap l (i + 1) (d % (i + 2))) rng1

/-- `random.shuffle(nodes)` (line 68). -/
def pyShuffle (l : List Node) (rng : Rng) : List Node × Rng :=
  shuffleSteps (l.length - 1) l rng

/-- Population construction in `simulate` (lines 62-68): build the node
list, then shuffle it in place. -/
def buildPopulation (n_nodes : ℤ) (rho : ℚ) (rng : Rng) : List Node × Rng :=
  pyShuffle (buildNodesPre n_nodes rho) rng

/-- A swap of two in-range entries permutes the list. -/
theorem listSwap_perm (l : List Node) (i j : ℕ) :
    (listSwap l i j).Perm l := by
  unfold listSwap
  split
  next a b hi hj =>
    have hi1 : i < l.length := by
      have := List.getElem?_eq_some.mp hi
      exact this.1
    have hj1 : j < l.length := by
      have := List.getElem?_eq_some.mp hj
      exact this.1
    have ha : l[i] = a := by
      obtain ⟨h, he⟩ := List.getElem?_eq_some.mp hi
      exact he
    have hb : l[j] = b := by
      obtain ⟨h, he⟩ := List.getElem?_eq_some.mp hj
      exact he
    have hj2 : j < (l.set i b).length := by simpa using hj1
    rw [List.perm_iff_count]
    intro c
    rw [List.count_set _ _ _ _ hj2, List.count_set _ _ _ _ hi1]
    have hset : (l.set i b)[j] = b := by
      rw [List.getElem_set]
      split
      · rfl
      · exact hb
    rw [hset, ha]
    have hmem : (if (a == c) = true then 1 else 0) ≤ List.count c l := by
      split
      next hic =>
        have hac : a = c := by simpa using hic
        have hcl : c ∈ l := by
          rw [← hac, ← ha]
          exact List.getElem_mem hi1
        exact List.count_pos_iff.mpr hcl
      next => exact Nat.zero_le _
    omega
  next => exact List.Perm.refl _

/-- Every prefix of the Fisher-Yates loop permutes the list. -/
theorem shuffleSteps_perm (k : ℕ) (l : List Node) (rng : Rng) :
    ((shuffleSteps k l rng).1).Perm l := by
  induction k generalizing l rng with
  | zero => exact List.Perm.refl _
  | succ k ih =>
    simp only [shuffleSteps]
    exact (ih _ _).trans (listSwap_perm _ _ _)

/-- `random.shuffle` permutes the list it is given. -/
theorem pyShuffle_perm (l : List Node) (rng : Rng) :
    ((pyShuffle l rng).1).Perm l :=
  shuffleSteps_perm _ _ _

/-- Counting over a constant list. -/
theorem countP_replicate (p : Node → Bool) (k : ℕ) (a : Node) :
    (List.replicate k a).countP p = if p a then k else 0 := by
  induction k with
  | zero => simp
  | succ k ih =>
    rw [List.replicate_succ, List.countP_cons, ih]
    split <;> simp_all

/-- Byzantine count of the unshuffled node list. -/
theorem countP_byz_buildNodesPre (n_nodes : ℤ) (rho : ℚ) :
    ((buildNodesPre n_nodes rho).countP fun x => x.is_byzantine) =
      (pyInt ((n_nodes : ℚ) * rho)).toNat := by
  simp [buildNodesPre, List.countP_append, countP_replicate]

/-- Honest count of the unshuffled node list. -/
theorem countP_honest_buildNodesPre (n_nodes : ℤ) (rho : ℚ) :
    ((buildNodesPre n_nodes rho).countP fun x => !x.is_byzantine) =
      (n_nodes - pyInt ((n_nodes : ℚ) * rho)).toNat := by
  simp [buildNodesPre, List.countP_append, countP_replicate]

/-- For a non-negative node count and a share in `[0, 1]`, the truncation
`int(n_nodes * rho)` is the floor, is non-negative, and is at most
`n_nodes`. -/
theorem pyInt_bounds (n_nodes : ℤ) (rho : ℚ) (hn : 0 ≤ n_nodes)
    (h0 : 0 ≤ rho) (h1 : rho ≤ 1) :
    pyInt ((n_nodes : ℚ) * rho) = ⌊(n_nodes : ℚ) * rho⌋ ∧
      0 ≤ ⌊(n_nodes : ℚ) * rho⌋ ∧ ⌊(n_nodes : ℚ) * rho⌋ ≤ n_nodes := by
  have hcast : (0 : ℚ) ≤ (n_nodes : ℚ) := by exact_mod_cast hn
  have hprod : (0 : ℚ) ≤ (n_nodes : ℚ) * rho := mul_nonneg hcast h0
  refine ⟨by simp [pyInt, hprod], Int.floor_nonneg.mpr hprod, ?_⟩
  have hle : (n_nodes : ℚ) * rho ≤ (n_nodes : ℚ) := by
    calc (n_nodes : ℚ) * rho ≤ (n_nodes : ℚ) * 1 :=
          mul_le_mul_of_nonneg_left h1 hcast
      _ = (n_nodes : ℚ) := mul_one _
  calc ⌊(n_nodes : ℚ) * rho⌋ ≤ ⌊(n_nodes : ℚ)⌋ := Int.floor_le_floor hle
    _ = n_nodes := Int.floor_intCast n_nodes

/-- Claim C6: for every node count `n_nodes ≥ 0`, share `rho ∈ [0, 1]` and
shuffle, the built population holds exactly `⌊n_nodes * rho⌋` Byzantine and
`n_nodes - ⌊n_nodes * rho⌋` honest nodes, and the two counts sum to
`n_nodes`. -/
theorem population_fault_composition (n_nodes : ℤ) (rho : ℚ) (rng : Rng)
    (hn : 0 ≤ n_nodes) (h0 : 0 ≤ rho) (h1 : rho ≤ 1) :
    (((buildPopulation n_nodes rho rng).1).countP fun x => x.is_byzantine) =
        (⌊(n_nodes : ℚ) * rho⌋).toNat ∧
    (((buildPopulation n_nodes rho rng).1).countP fun x => !x.is_byzantine) =
        (n_nodes - ⌊(n_nodes : ℚ) * rho⌋).toNat ∧
    (((buildPopulation n_nodes rho rng).1).countP fun x => x.is_byzantine) +
        (((buildPopulation n_nodes rho rng).1).countP
          fun x => !x.is_byzantine) = n_nodes.toNat := by
  obtain ⟨hfloor, hpos, hle⟩ := pyInt_bounds n_nodes rho hn h0 h1
  have hperm : ((buildPopulation n_nodes rho rng).1).Perm
      (buildNodesPre n_nodes rho) := pyShuffle_perm _ _
  have hbyz := (hperm.countP_eq fun x => x.is_byzantine).trans
    (countP_byz_buildNodesPre n_nodes rho)
  have hhon := (hperm.countP_eq fun x => !x.is_byzantine).trans
    (countP_honest_buildNodesPre n_nodes rho)
  rw [hfloor] at hbyz hhon
  refine ⟨hbyz, hhon, ?_⟩
  rw [hbyz, hhon]
  omega

/-- Witness for C6: 20 nodes at share 1/5, with the all-zeros draw stream,
give 4 Byzantine and 16 honest nodes. -/
theorem population_fault_composition_witness :
    (((buildPopulation 20 (1/5) ⟨fun _ => 0, 0⟩).1).countP
        fun x => x.is_byzantine) = 4 ∧
      (((buildPopulation 20 (1/5) ⟨fun _ => 0, 0⟩).1).countP
        fun x => !x.is_byzantine) = 16 := by
  obtain ⟨h1, h2, h3⟩ := population_fault_composition 20 (1/5)
    ⟨fun _ => 0, 0⟩ (by norm_num) (by norm_num) (by norm_num)
  refine ⟨?_, ?_⟩
  · rw [h1]
    norm_num
    decide
  · rw [h2]
    norm_num
    decide

/-- Claim C7: for every population and shuffle, the trusted subset computed
at construction contains only honest nodes, omits no honest node, and its
size is the population's honest count `n_nodes - ⌊n_nodes * rho⌋`. -/
theorem trusted_subset_matches_honest (n_nodes : ℤ) (rho : ℚ) (rng : Rng)
    (hn : 0 ≤ n_nodes) (h0 : 0 ≤ rho) (h1 : rho ≤ 1) :
    (∀ x ∈ (CEPBFTProtocol.init
        (buildPopulation n_nodes rho rng).1).trusted_nodes,
      x.is_byzantine = false) ∧
    (∀ x ∈ (buildPopulation n_nodes rho rng).1, x.is_byzantine = false →
      x ∈ (CEPBFTProtocol.init
        (buildPopulation n_nodes rho rng).1).trusted_nodes) ∧
    ((CEPBFTProtocol.init
        (buildPopulation n_nodes rho rng).1).trusted_nodes).length
      = (n_nodes - ⌊(n_nodes : ℚ) * rho⌋).toNat := by
  obtain ⟨hfloor, hpos, hle⟩ := pyInt_bounds n_nodes rho hn h0 h1
  refine ⟨?_, ?_, ?_⟩
  · intro x hx
    have hx2 := List.of_mem_filter hx
    simpa using hx2
  · intro x hx hhon
    exact List.mem_filter.mpr ⟨hx, by simp [hhon]⟩
  · have hperm : ((buildPopulation n_nodes rho rng).1).Perm
        (buildNodesPre n_nodes rho) := pyShuffle_perm _ _
    have hfil : ((CEPBFTProtocol.init
        (buildPopulation n_nodes rho rng).1).trusted_nodes).length
        = ((buildPopulation n_nodes rho rng).1).countP
            fun x => !x.is_byzantine := by
      simp [CEPBFTProtocol.init, CEPBFTProtocol.classify_nodes,
        List.countP_eq_length_filter]
    rw [hfil, hperm.countP_eq, countP_honest_buildNodesPre, hfloor]

/-- Witness for C7: 20 nodes at share 1/5 give a trusted subset of size
16. -/
theorem trusted_subset_matches_honest_witness :
    ((CEPBFTProtocol.init
        (buildPopulation 20 (1/5) ⟨fun _ => 0, 0⟩).1).trusted_nodes).length
      = 16 := by
  obtain ⟨h1, h2, h3⟩ := trusted_subset_matches_honest 20 (1/5)
    ⟨fun _ => 0, 0⟩ (by norm_num) (by norm_num) (by norm_num)
  rw [h3]
  norm_num
  decide

/-- The unshuffled node list at `n_nodes = 20`, `byzantine_ratio = 0.2`:
`int(20 * 0.2) = 4` Byzantine nodes, then 16 honest ones. -/
theorem buildNodesPre_twenty_fifth :
    buildNodesPre 20 (1/5) =
      List.replicate 4 ⟨true⟩ ++ List.replicate 16 ⟨false⟩ := by
  have h : pyInt (((20 : ℤ) : ℚ) * (1/5)) = 4 := by
    rw [pyInt, if_pos (by norm_num)]
    norm_num
  simp only [buildNodesPre, h]
  decide

/-- Claim C8: at `n_nodes = 20`, `byzantine_ratio = 0.2`, every shuffle
yields exactly 4 Byzantine and 16 honest nodes, and the baseline consensus
approves in every round regardless of the Byzantine draws: the 16
guaranteed approvals already meet the real-valued threshold
`(2/3) * 20`. -/
theorem baseline_deterministic_twenty_nodes (rng : Rng) (draws : ℕ → Bool) :
    (((buildPopulation 20 (1/5) rng).1).countP fun x => x.is_byzantine) = 4 ∧
    (((buildPopulation 20 (1/5) rng).1).countP fun x => !x.is_byzantine)
      = 16 ∧
    (PBFTProtocol.init (buildPopulation 20 (1/5) rng).1).consensus draws
      = true := by
  have hperm : ((buildPopulation 20 (1/5) rng).1).Perm
      (buildNodesPre 20 (1/5)) := pyShuffle_perm _ _
  have hbyz : (((buildPopulation 20 (1/5) rng).1).countP
      fun x => x.is_byzantine) = 4 := by
    rw [hperm.countP_eq, buildNodesPre_twenty_fifth]
    simp [List.countP_append, countP_replicate]
  have hhon : (((buildPopulation 20 (1/5) rng).1).countP
      fun x => !x.is_byzantine) = 16 := by
    rw [hperm.countP_eq, buildNodesPre_twenty_fifth]
    simp [List.countP_append, countP_replicate]
  have hlen : ((buildPopulation 20 (1/5) rng).1).length = 20 := by
    rw [hperm.length_eq, buildNodesPre_twenty_fifth]
    rfl
  have happ : 16 ≤
      (collectVotes (buildPopulation 20 (1/5) rng).1 draws).count true :=
    hhon ▸ countP_honest_le_count_true _ draws
  refine ⟨hbyz, hhon, ?_⟩
  simp only [PBFTProtocol.consensus, PBFTProtocol.init, hlen]
  rw [if_pos]
  rw [quorum_iff]
  omega

/-- The sweep's fault-share values (line 89): `[0.0, 0.1, 0.2, 0.3, 0.4]`. -/
def byzantine_ratios : List ℚ := [0, 1/10, 1/5, 3/10, 2/5]

/-- One iteration of the sweep loop (lines 96-98): `simulate(PBFTProtocol,
...)` constructs and shuffles its own node list, then
`simulate(CEPBFTProtocol, ...)` does the same starting from the generator
state the first call left behind; `n_nodes = 20` per line 87. The vote
draws the first call consumes between the two shuffles advance the stream
without affecting any population's contents, and every statement below
quantifies over the whole stream, so eliding them loses no behavior. -/
def sweepPopulationPair (rho : ℚ) (rng : Rng) :
    (List Node × List Node) × Rng :=
  let r1 := buildPopulation 20 rho rng
  let r2 := buildPopulation 20 rho r1.2
  ((r1.1, r2.1), r2.2)

/-- Counterexample to claim C1: the two protocols do not receive the same
population. At sweep share `0.2` with the identity draw stream, the node
list built for `PBFTProtocol` differs from the one built for
`CEPBFTProtocol` immediately afterwards. -/
theorem sweep_shares_population_counterexample :
    (¬ ∀ rho ∈ byzantine_ratios, ∀ rng : Rng,
        (sweepPopulationPair rho rng).1.1 =
          (sweepPopulationPair rho rng).1.2) ∧
    (sweepPopulationPair (1/5) ⟨fun p => p, 0⟩).1.1 ≠
      (sweepPopulationPair (1/5) ⟨fun p => p, 0⟩).1.2 := by
  have hne : (sweepPopulationPair (1/5) ⟨fun p => p, 0⟩).1.1 ≠
      (sweepPopulationPair (1/5) ⟨fun p => p, 0⟩).1.2 := by
    simp only [sweepPopulationPair, buildPopulation,
      buildNodesPre_twenty_fifth]
    decide
  refine ⟨fun h => hne (h (1/5) ?_ ⟨fun p => p, 0⟩), hne⟩
  norm_num [byzantine_ratios]

/-- Claim C1 (amended): each protocol receives an independently built and
independently shuffled population; at every sweep share the two populations
are permutations of the same unshuffled list `buildNodesPre 20 rho`, so
they always agree in size and fault composition, but not in general as
lists. -/
theorem sweep_pair_same_composition (rho : ℚ) (rng : Rng) :
    ((sweepPopulationPair rho rng).1.1).Perm (buildNodesPre 20 rho) ∧
      ((sweepPopulationPair rho rng).1.2).Perm (buildNodesPre 20 rho) := by
  simp only [sweepPopulationPair, buildPopulation]
  exact ⟨pyShuffle_perm _ _, pyShuffle_perm _ _⟩

/-- Exceptions and failure markers. `zeroDivision` is Python's
`ZeroDivisionError`. `invalidElapsed` and `invalidParams` are the explicit
failure values the guards demanded by the spec's error-handling section
would return; no definition embedded from the source ever produces them. -/
inductive PyError where
  | zeroDivision
  | invalidElapsed
  | invalidParams
deriving DecidableEq

/-- Python float division: raises `ZeroDivisionError` on a zero
denominator, otherwise returns the exact quotient. -/
def pyDiv (a b : ℚ) : Except PyError ℚ :=
  if b = 0 then Except.error PyError.zeroDivision else Except.ok (a / b)

/-- `throughput = correct_transactions / elapsed_time` (line 81): the
division is performed unconditionally, on whatever elapsed wall-clock time
(an explicit parameter here) the run measured. -/
def throughputOf (correct_transactions : ℕ) (elapsed_time : ℚ) :
    Except PyError ℚ :=
  pyDiv (correct_transactions : ℚ) elapsed_time

/-- The population-building phase of `simulate` (lines 62-68) with its
exception behavior made explicit: no operation there can raise — `range`
over a negative count is simply empty — so construction succeeds for every
parameter combination. -/
def buildNodesRun (n_nodes : ℤ) (rho : ℚ) : Except PyError (List Node) :=
  Except.ok (buildNodesPre n_nodes rho)

/-- Counterexample to claim C2: the driver does not guard the throughput
denominator. A zero elapsed time hits the raw `ZeroDivisionError` rather
than a dedicated failure value, and a negative elapsed time silently
produces a (negative) throughput instead of being rejected. -/
theorem throughput_guard_counterexample :
    (¬ ∀ (c : ℕ) (e : ℚ), e ≤ 0 →
        ∃ err, err ≠ PyError.zeroDivision ∧
          throughputOf c e = Except.error err) ∧
    throughputOf 1 0 = Except.error PyError.zeroDivision ∧
    throughputOf 1 (-1) = Except.ok (-1) := by
  have h0 : throughputOf 1 0 = Except.error PyError.zeroDivision := by
    simp [throughputOf, pyDiv]
  have h1 : throughputOf 1 (-1) = Except.ok (-1) := by
    norm_num [throughputOf, pyDiv]
  refine ⟨?_, h0, h1⟩
  intro h
  obtain ⟨err, hne, herr⟩ := h 1 0 le_rfl
  rw [h0] at herr
  simp_all

/-- Claim C2 (amended): line 81 divides unconditionally. A zero elapsed
time raises `ZeroDivisionError`; any nonzero elapsed time — positive or
negative — yields `correct_transactions / elapsed_time`. -/
theorem throughput_division_unguarded (correct_transactions : ℕ)
    (elapsed_time : ℚ) :
    (elapsed_time = 0 →
        throughputOf correct_transactions elapsed_time =
          Except.error PyError.zeroDivision) ∧
    (elapsed_time ≠ 0 →
        throughputOf correct_transactions elapsed_time =
          Except.ok ((correct_transactions : ℚ) / elapsed_time)) := by
  constructor <;> intro h <;> simp [throughputOf, pyDiv, h]

/-- Witness for the amended C2: 100 correct rounds over elapsed time `-2`
still produce a quotient, `-50`. -/
theorem throughput_division_unguarded_witness :
    throughputOf 100 (-2) = Except.ok (-50) := by
  have h := (throughput_division_unguarded 100 (-2)).2 (by norm_num)
  rw [h]
  norm_num

/-- Counterexample to claim C3: population building rejects nothing. A
share above 1 is silently accepted and yields 15 Byzantine nodes out of a
requested 10; a negative node count is silently accepted and yields an
empty population. -/
theorem builder_validation_counterexample :
    (¬ ∀ (n_nodes : ℤ) (rho : ℚ), (n_nodes < 0 ∨ rho < 0 ∨ 1 < rho) →
        ∃ err, buildNodesRun n_nodes rho = Except.error err) ∧
    (1 : ℚ) < 3/2 ∧
    buildNodesRun 10 (3/2) = Except.ok (List.replicate 15 ⟨true⟩) ∧
    buildNodesRun (-5) (1/2) = Except.ok [] := by
  have h10 : buildNodesRun 10 (3/2) =
      Except.ok (List.replicate 15 ⟨true⟩) := by
    have h : pyInt (((10 : ℤ) : ℚ) * (3/2)) = 15 := by
      rw [pyInt, if_pos (by norm_num)]
      norm_num
    simp only [buildNodesRun, buildNodesPre, h]
    congr 1
  have hneg : buildNodesRun (-5) (1/2) = Except.ok [] := by
    have h : pyInt (((-5 : ℤ) : ℚ) * (1/2)) = -2 := by
      rw [pyInt, if_neg (by norm_num)]
      rw [show (((-5 : ℤ) : ℚ) * (1/2)) = -(5/2) by norm_num]
      rw [Int.ceil_neg]
      norm_num
    simp only [buildNodesRun, buildNodesPre, h]
    congr 1
  refine ⟨?_, by norm_num, h10, hneg⟩
  intro h
  obtain ⟨err, herr⟩ := h 10 (3/2) (Or.inr (Or.inr (by norm_num)))
  rw [h10] at herr
  simp_all

/-- Claim C3 (amended): the builder performs no validation and silently
accepts every parameter combination, returning `int(n_nodes * rho)`
(clipped at zero by `range`) Byzantine nodes and `n_nodes` minus that many
(again clipped at zero) honest nodes. -/
theorem builder_accepts_all_parameters (n_nodes : ℤ) (rho : ℚ) :
    ∃ pop, buildNodesRun n_nodes rho = Except.ok pop ∧
      (pop.countP fun x => x.is_byzantine) =
        (pyInt ((n_nodes : ℚ) * rho)).toNat ∧
      (pop.countP fun x => !x.is_byzantine) =
        (n_nodes - pyInt ((n_nodes : ℚ) * rho)).toNat :=
  ⟨buildNodesPre n_nodes rho, rfl, countP_byz_buildNodesPre n_nodes rho,
    countP_honest_buildNodesPre n_nodes rho⟩
